import Mathlib

/-!
Shallow embedding of `src/hw3.cpp`, an Arduino sketch that reads a
comma-delimited line of integers over serial, quantizes them into an int8
input tensor, invokes a TFLite-Micro model, and reports a dequantized,
rounded and clamped prediction.  Definitions follow the C++ source; the
few definitions written from the specification text instead are marked as
such in their doc comments.
-/

namespace HW3

/-- INT_ARRAY_SIZE from the source: the required token arity. -/
def INT_ARRAY_SIZE : Nat := 7

/-- INPUT_BUFFER_SIZE from the source: capacity of the line buffer. -/
def INPUT_BUFFER_SIZE : Nat := 64

/-- Embeds the C `isspace` character class used by `atoi` when it skips
leading whitespace. -/
def isSpaceChar (c : Char) : Bool :=
  c = ' ' || c = '\t' || c = '\n' || c = '\x0b' || c = '\x0c' || c = '\r'

/-- Decimal digit test, as in the C locale used by `atoi`. -/
def isDigitChar (c : Char) : Bool :=
  '0' ≤ c && c ≤ '9'

/-- Digit-consumption loop of the C `atoi`: accumulates base-10 digits and
stops at the first non-digit character. -/
def atoi_digits : List Char → Int → Int
  | [], acc => acc
  | c :: cs, acc =>
      if isDigitChar c then atoi_digits cs (acc * 10 + ((c.toNat : Int) - 48))
      else acc

/-- Embeds the C `atoi` called at line 61 of the source: skip leading
whitespace, consume an optional sign, then consume the longest run of
decimal digits; a token with no digits yields 0.  Overflow is ignored
(`atoi` has undefined behaviour there; the inputs of interest are small). -/
def atoi (t : List Char) : Int :=
  match t.dropWhile isSpaceChar with
  | [] => 0
  | c :: rest =>
      if c = '-' then - atoi_digits rest 0
      else if c = '+' then atoi_digits rest 0
      else atoi_digits (c :: rest) 0

/-- Scanner for `strtok`: walks the buffer while carrying the characters of
the token currently being read (in reverse).  A comma closes the current
token if it is nonempty and is otherwise skipped, so runs of commas act as
one delimiter and empty fields produce no token. -/
def strtok_go : List Char → List Char → List (List Char)
  | [], acc => if acc = [] then [] else [acc.reverse]
  | c :: cs, acc =>
      if c = ',' then
        if acc = [] then strtok_go cs []
        else acc.reverse :: strtok_go cs []
      else strtok_go cs (c :: acc)

/-- Embeds the sequence of C `strtok(_, ",")` calls in `string_to_array`
(source lines 59-62): `strtok` skips runs of delimiters, so it yields
exactly the maximal nonempty comma-free segments of the buffer, in order. -/
def strtok_split (l : List Char) : List (List Char) :=
  strtok_go l []

/-- Loop body of `string_to_array` (source lines 58-64): store `atoi` of
each token in order, counting, and break once the count reaches
`INT_ARRAY_SIZE` even if tokens remain. -/
def sta_loop : List (List Char) → Nat → Nat × List Int
  | [], n => (n, [])
  | t :: ts, n =>
      if n + 1 ≥ INT_ARRAY_SIZE then (n + 1, [atoi t])
      else
        let r := sta_loop ts (n + 1)
        (r.1, atoi t :: r.2)

/-- Embeds `string_to_array` (source lines 57-66): returns the number of
stored tokens together with the stored values. -/
def string_to_array (l : List Char) : Nat × List Int :=
  sta_loop (strtok_split l) 0

/-- Outcome of `process_input` (source lines 123-131): either the arity
error message is printed and the engine is not touched, or the parsed
values are handed to `measure_and_run_model`, which quantizes them and
invokes the engine. -/
inductive Response where
  | arityError : Response
  | invoked : List Int → Response
deriving DecidableEq

/-- Embeds `process_input` (source lines 123-131): tokenize the buffer,
reject unless exactly `INT_ARRAY_SIZE` values were stored, otherwise run
the model on them.  Note the source consults no readiness state here. -/
def process_input_resp (l : List Char) : Response :=
  let r := string_to_array l
  if r.1 ≠ INT_ARRAY_SIZE then Response.arityError
  else Response.invoked r.2

/-- Event produced by one step of the serial poll loop, mirroring the
LineAccumulator contract the loop implements: either the byte was appended
(`cont`), or a carriage return completed a line (whose bytes are handed to
`process_input`), or the buffer overflowed and was discarded. -/
inductive LineEvent where
  | cont : LineEvent
  | lineComplete : List Char → LineEvent
  | overflow : LineEvent
deriving DecidableEq

/-- State of the line accumulator: `buf` holds the bytes written since the
last reset (the rest of the 64-byte C array is zero after `memset`, so the
C string read by `process_input` is exactly `buf`), and `idx` embeds
`in_buff_idx`. -/
structure AccState where
  buf : List Char
  idx : Nat
deriving DecidableEq

/-- Initial accumulator state: zeroed buffer, cursor 0. -/
def initAcc : AccState := ⟨[], 0⟩

/-- Embeds one iteration of `loop` (source lines 133-148) on an available
byte: the byte is stored at `in_buff_idx` and the index incremented; a
carriage return (13) then hands the whole buffer, terminator included, to
`process_input` and resets buffer and index; otherwise, if the index has
reached `INPUT_BUFFER_SIZE`, buffer and index are reset and the partial
line is discarded. -/
def feed (st : AccState) (c : Char) : AccState × LineEvent :=
  if c = '\r' then (initAcc, LineEvent.lineComplete (st.buf ++ [c]))
  else if st.idx + 1 ≥ INPUT_BUFFER_SIZE then (initAcc, LineEvent.overflow)
  else (⟨st.buf ++ [c], st.idx + 1⟩, LineEvent.cont)

/-- Accumulator state reached from `st` after consuming the bytes `cs`. -/
def steps (st : AccState) (cs : List Char) : AccState :=
  cs.foldl (fun s c => (feed s c).1) st

/-- Accumulator state reached from the initial state after the byte
sequence `cs`. -/
def run (cs : List Char) : AccState :=
  steps initAcc cs

/-- Truncation toward zero on rationals: the rounding performed by the
C cast of a float to a signed integer type. -/
def ratTrunc (q : ℚ) : ℤ :=
  if 0 ≤ q then ⌊q⌋ else ⌈q⌉

/-- Two's-complement wraparound of an integer into the int8 range, the
behaviour of the narrowing conversion to `int8_t` on the target (the C++
float-to-int8 cast saturates to the wide integer and then keeps the low
byte; it does not saturate to [-128, 127]). -/
def wrap8 (v : ℤ) : ℤ :=
  (v + 128) % 256 - 128

/-- Quantized value before the int8 cast, from source line 88:
`(input_array[i] - input_zero_point) / input_scale`, truncated toward zero
by the conversion out of float. -/
def quantize (scale : ℚ) (zp x : ℤ) : ℤ :=
  ratTrunc (((x - zp : ℤ) : ℚ) / scale)

/-- Value actually stored into `input_tensor->data.int8[i]` at source
lines 88-89: the quantized value narrowed to int8 by wraparound. -/
def quantize_store (scale : ℚ) (zp x : ℤ) : ℤ :=
  wrap8 (quantize scale zp x)

/-- Raw dequantized prediction from source line 103:
`(raw_prediction - output_zero_point) * output_scale`. -/
def dequantize_raw (scale : ℚ) (zp r : ℤ) : ℚ :=
  ((r - zp : ℤ) : ℚ) * scale

/-- Rounding to the nearest integer with ties away from zero: the C
`round` function used at source line 110. -/
def roundAway (q : ℚ) : ℤ :=
  if 0 ≤ q then ⌊q + 1/2⌋ else ⌈q - 1/2⌉

/-- First clamp of source line 111: `if (predicted_integer < -128)
predicted_integer = -128;`. -/
def clamp_low (p : ℤ) : ℤ :=
  if p < -128 then -128 else p

/-- Second clamp of source line 112: `if (predicted_integer > 127)
predicted_integer = 127;`. -/
def clamp_high (p : ℤ) : ℤ :=
  if p > 127 then 127 else p

/-- Reported integer prediction, from source lines 110-112: round the raw
dequantized value, then apply the two sequential clamping comparisons. -/
def dequant_report (scale : ℚ) (zp r : ℤ) : ℤ :=
  clamp_high (clamp_low (roundAway (dequantize_raw scale zp r)))

/-- Embeds `setup` (source lines 30-55): the function returns early on a
schema-version mismatch and on tensor-allocation failure, so the engine
is ready exactly when both checks pass; nothing ever runs `setup` again. -/
def setup_ready (schemaOk allocOk : Bool) : Bool :=
  schemaOk && allocOk

example : strtok_split "1,,2".toList = [['1'], ['2']] := by decide
example : quantize_store 1 0 200 = -56 := by
  norm_num [quantize_store, quantize, ratTrunc, wrap8]
example : ratTrunc (-(3/2) : ℚ) = -1 := by
  norm_num [ratTrunc]
  rw [Int.ceil_eq_iff]
  constructor <;> norm_num
example : roundAway (-(5/2) : ℚ) = -3 := by
  norm_num [roundAway]
  rw [Int.ceil_eq_iff]
  constructor <;> norm_num
example : dequant_report (1/10) 0 (-120) = -12 := by
  norm_num [dequant_report, dequantize_raw, roundAway, clamp_low, clamp_high]
  have h : ⌈(-(25/2) : ℚ)⌉ = -12 := by
    rw [Int.ceil_eq_iff]
    constructor <;> norm_num
  rw [h]
  norm_num
example : (feed (run "1".toList) '\r').2 = LineEvent.lineComplete "1\r".toList := by decide
example : string_to_array "1,2,3,4,5,6,7,8".toList = (7, [1,2,3,4,5,6,7]) := by decide
example : atoi "12x".toList = 12 := by decide
example : atoi " -42\r".toList = -42 := by decide
example : process_input_resp "1,2,x,4,5,6,7\r".toList = Response.invoked [1,2,0,4,5,6,7] := by decide

/-- Formalizes the notion of a fully valid base-10 signed integer string
used by the specification when it speaks of parse failures: an optional
sign followed by a nonempty run of digits and nothing else. -/
def spec_valid_int_token (t : List Char) : Bool :=
  match t with
  | '-' :: rest => !rest.isEmpty && rest.all isDigitChar
  | '+' :: rest => !rest.isEmpty && rest.all isDigitChar
  | _ => !t.isEmpty && t.all isDigitChar

/-- Tests whether a token has a digit right after its optional leading
whitespace and optional sign, i.e. whether `atoi` finds any digit to
consume. -/
def leading_digit (t : List Char) : Bool :=
  match t.dropWhile isSpaceChar with
  | [] => false
  | c :: rest =>
      if c = '-' then (rest.head?.map isDigitChar).getD false
      else if c = '+' then (rest.head?.map isDigitChar).getD false
      else isDigitChar c

theorem atoi_digits_no_digit (cs : List Char) (acc : Int)
    (h : (cs.head?.map isDigitChar).getD false = false) :
    atoi_digits cs acc = acc := by
  cases cs with
  | nil => rfl
  | cons c rest =>
      have hc : isDigitChar c = false := by simpa using h
      simp [atoi_digits, hc]

theorem atoi_eq_zero_of_no_leading_digit (t : List Char)
    (h : leading_digit t = false) : atoi t = 0 := by
  unfold leading_digit at h
  unfold atoi
  cases hd : t.dropWhile isSpaceChar with
  | nil => rfl
  | cons c rest =>
      rw [hd] at h
      dsimp only at h ⊢
      by_cases hc : c = '-'
      · rw [if_pos hc] at h ⊢
        rw [atoi_digits_no_digit rest 0 h, neg_zero]
      · by_cases hc2 : c = '+'
        · rw [if_neg hc, if_pos hc2] at h ⊢
          rw [atoi_digits_no_digit rest 0 h]
        · rw [if_neg hc, if_neg hc2] at h ⊢
          rw [atoi_digits_no_digit (c :: rest) 0]
          simp [h]

theorem strtok_go_append (l1 : List Char) :
    ∀ (acc : List Char) (l2 : List Char),
      strtok_go (l1 ++ ',' :: l2) acc = strtok_go l1 acc ++ strtok_go l2 [] := by
  induction l1 with
  | nil =>
      intro acc l2
      by_cases h : acc = [] <;> simp [strtok_go, h]
  | cons c cs ih =>
      intro acc l2
      by_cases hc : c = ','
      · by_cases h : acc = [] <;> simp [strtok_go, hc, h, ih]
      · simp [strtok_go, hc, ih]

theorem strtok_split_append (l1 l2 : List Char) :
    strtok_split (l1 ++ ',' :: l2) = strtok_split l1 ++ strtok_split l2 :=
  strtok_go_append l1 [] l2

theorem sta_loop_spec (ts : List (List Char)) :
    ∀ n, n < INT_ARRAY_SIZE →
      sta_loop ts n =
        (min (n + ts.length) INT_ARRAY_SIZE,
         (ts.take (INT_ARRAY_SIZE - n)).map atoi) := by
  induction ts with
  | nil =>
      intro n hn
      simp [sta_loop]
      omega
  | cons t ts ih =>
      intro n hn
      by_cases h : n + 1 ≥ INT_ARRAY_SIZE
      · have hn7 : n = 6 := by simp [INT_ARRAY_SIZE] at hn h; omega
        subst hn7
        simp [sta_loop, INT_ARRAY_SIZE]
        omega
      · have h1 : n + 1 < INT_ARRAY_SIZE := by omega
        have htake : INT_ARRAY_SIZE - n = (INT_ARRAY_SIZE - (n + 1)) + 1 := by
          omega
        simp only [sta_loop, if_neg h, ih (n + 1) h1, htake,
          List.take_succ_cons, List.map_cons, List.length_cons]
        rw [show n + 1 + ts.length = n + (ts.length + 1) from by omega]

theorem string_to_array_spec (l : List Char) :
    string_to_array l =
      (min (strtok_split l).length INT_ARRAY_SIZE,
       ((strtok_split l).take INT_ARRAY_SIZE).map atoi) := by
  have h := sta_loop_spec (strtok_split l) 0 (by simp [INT_ARRAY_SIZE])
  simpa [string_to_array] using h

/-- C1: the code rejects a line only when `string_to_array` stores fewer
than 7 tokens; `strtok` extraction is capped at 7 stored tokens, so a line
with more than 7 comma-separated tokens is not rejected: its first 7
tokens are quantized and the engine is invoked.  This counterexample
exhibits a line with 8 tokens that is accepted. -/
theorem c1_cex :
    (strtok_split "1,2,3,4,5,6,7,8\r".toList).length = 8 ∧
      process_input_resp "1,2,3,4,5,6,7,8\r".toList =
        Response.invoked [1, 2, 3, 4, 5, 6, 7] ∧
      Response.invoked [1, 2, 3, 4, 5, 6, 7] ≠ Response.arityError := by
  refine ⟨by decide, by decide, by decide⟩

/-- C1 (amended): a line yielding fewer than 7 tokens is rejected with the
arity error and the engine is not invoked; a line yielding 7 or more
tokens is accepted, the stored values being `atoi` of its first 7 tokens. -/
theorem c1_arity (l : List Char) :
    ((strtok_split l).length < INT_ARRAY_SIZE →
      process_input_resp l = Response.arityError) ∧
    (INT_ARRAY_SIZE ≤ (strtok_split l).length →
      process_input_resp l =
        Response.invoked (((strtok_split l).take INT_ARRAY_SIZE).map atoi)) := by
  constructor
  · intro h
    simp [process_input_resp, string_to_array_spec]
    omega
  · intro h
    have hmin : min (strtok_split l).length INT_ARRAY_SIZE = INT_ARRAY_SIZE := by
      omega
    simp [process_input_resp, string_to_array_spec, hmin]

theorem c1_arity_witness :
    process_input_resp "1,2,3\r".toList = Response.arityError ∧
      process_input_resp "1,2,3,4,5,6,7,8\r".toList =
        Response.invoked
          (((strtok_split "1,2,3,4,5,6,7,8\r".toList).take INT_ARRAY_SIZE).map atoi) :=
  ⟨(c1_arity "1,2,3\r".toList).1 (by decide),
   (c1_arity "1,2,3,4,5,6,7,8\r".toList).2 (by decide)⟩

/-- C8: the claim that every token that is not a valid base-10 signed
integer parses to 0 fails, because `atoi` parses the longest numeric
leading run: the token `12x` is not a valid integer yet parses to 12, not
0, and the line containing it is accepted with that value. -/
theorem c8_cex :
    spec_valid_int_token "12x".toList = false ∧
      process_input_resp "12x,2,3,4,5,6,7\r".toList =
        Response.invoked [12, 2, 3, 4, 5, 6, 7] ∧
      (12 : Int) ≠ 0 := by
  refine ⟨by decide, by decide, by decide⟩

/-- C8 (amended): tokens are parsed with `atoi` semantics, so a token with
no digit after its optional whitespace and sign parses to 0 rather than
failing the line; in particular `1,2,x,4,5,6,7<CR>` yields exactly 7
tokens with values 1,2,0,4,5,6,7 and is accepted for inference. -/
theorem c8_atoi :
    (∀ t : List Char, leading_digit t = false → atoi t = 0) ∧
      process_input_resp "1,2,x,4,5,6,7\r".toList =
        Response.invoked [1, 2, 0, 4, 5, 6, 7] :=
  ⟨atoi_eq_zero_of_no_leading_digit, by decide⟩

theorem c8_atoi_witness : atoi "x".toList = 0 :=
  c8_atoi.1 "x".toList (by decide)

/-- C10: empty fields produced by leading, trailing, or consecutive commas
contribute no token: splitting distributes over any comma, a leading or
trailing comma is dropped, and concretely `1,,2,3,4,5,6` yields 6 tokens
and is rejected while `1,,2,3,4,5,6,7` yields 7 tokens and is accepted. -/
theorem c10_empty_fields :
    (∀ l1 l2 : List Char,
        strtok_split (l1 ++ ',' :: l2) = strtok_split l1 ++ strtok_split l2) ∧
    (∀ l : List Char, strtok_split (',' :: l) = strtok_split l) ∧
    (∀ l : List Char, strtok_split (l ++ [',']) = strtok_split l) ∧
    (strtok_split "1,,2,3,4,5,6".toList).length = 6 ∧
    process_input_resp "1,,2,3,4,5,6\r".toList = Response.arityError ∧
    process_input_resp "1,,2,3,4,5,6,7\r".toList =
      Response.invoked [1, 2, 3, 4, 5, 6, 7] := by
  refine ⟨strtok_split_append, ?_, ?_, by decide, by decide, by decide⟩
  · intro l
    simpa using strtok_split_append [] l
  · intro l
    simpa [strtok_split, strtok_go] using strtok_split_append l []

theorem steps_append (st : AccState) (a b : List Char) :
    steps st (a ++ b) = steps (steps st a) b := by
  simp [steps, List.foldl_append]

theorem steps_cons (st : AccState) (c : Char) (cs : List Char) :
    steps st (c :: cs) = steps (feed st c).1 cs := rfl

theorem feed_cr (st : AccState) :
    feed st '\r' = (initAcc, LineEvent.lineComplete (st.buf ++ ['\r'])) := by
  simp [feed]

theorem feed_reset (st : AccState) (c : Char)
    (h : (feed st c).2 ≠ LineEvent.cont) : (feed st c).1 = initAcc := by
  unfold feed at h ⊢
  split_ifs at h ⊢ with h1 h2
  · rfl
  · rfl
  · exact absurd rfl h

theorem steps_inv (cs : List Char) :
    ∀ st : AccState, st.buf.length = st.idx → st.idx < INPUT_BUFFER_SIZE →
      (steps st cs).buf.length = (steps st cs).idx ∧
        (steps st cs).idx < INPUT_BUFFER_SIZE := by
  induction cs with
  | nil => intro st h1 h2; exact ⟨h1, h2⟩
  | cons c cs ih =>
      intro st h1 h2
      rw [steps_cons]
      unfold feed
      split_ifs with hcr hov
      · exact ih initAcc rfl (by simp [INPUT_BUFFER_SIZE, initAcc])
      · exact ih initAcc rfl (by simp [INPUT_BUFFER_SIZE, initAcc])
      · exact ih ⟨st.buf ++ [c], st.idx + 1⟩ (by simp [h1]) (by dsimp only; omega)

theorem steps_no_cr (ds : List Char) :
    ∀ st : AccState, st.buf.length = st.idx →
      (∀ c ∈ ds, c ≠ '\r') → st.idx + ds.length < INPUT_BUFFER_SIZE →
      steps st ds = ⟨st.buf ++ ds, st.idx + ds.length⟩ := by
  induction ds with
  | nil => intro st h1 _ _; simp [steps]
  | cons d ds ih =>
      intro st h1 hcr hlen
      have hd : d ≠ '\r' := hcr d (List.mem_cons_self d ds)
      have hov : ¬ st.idx + 1 ≥ INPUT_BUFFER_SIZE := by
        simp [List.length_cons] at hlen; omega
      rw [steps_cons]
      unfold feed
      rw [if_neg hd, if_neg hov]
      have := ih ⟨st.buf ++ [d], st.idx + 1⟩ (by simp [h1])
        (fun c hc => hcr c (List.mem_cons_of_mem d hc))
        (by simp [List.length_cons] at hlen ⊢; omega)
      rw [this]
      simp only [List.append_assoc, List.singleton_append, List.length_cons,
        AccState.mk.injEq]
      refine ⟨by simp, by omega⟩

theorem steps_fill_resets (n : Nat) :
    ∀ (i : Nat) (buf : List Char) (j : Char), j ≠ '\r' →
      buf.length = i → i < INPUT_BUFFER_SIZE → i + n = INPUT_BUFFER_SIZE →
      steps ⟨buf, i⟩ (List.replicate n j) = initAcc := by
  induction n with
  | zero =>
      intro i _ _ _ _ hlt hsum
      omega
  | succ n ih =>
      intro i buf j hj hbuf hlt hsum
      rw [List.replicate_succ, steps_cons]
      unfold feed
      rw [if_neg hj]
      by_cases hov : i + 1 ≥ INPUT_BUFFER_SIZE
      · rw [if_pos hov]
        have hn : n = 0 := by omega
        subst hn
        simp [steps]
      · rw [if_neg hov]
        exact ih (i + 1) (buf ++ [j]) j hj (by simp [hbuf]) (by omega) (by omega)

theorem steps_junk_multiple (k : Nat) (j : Char) (hj : j ≠ '\r') :
    steps initAcc (List.replicate (INPUT_BUFFER_SIZE * k) j) = initAcc := by
  induction k with
  | zero => simp [steps]
  | succ k ih =>
      have hsplit : INPUT_BUFFER_SIZE * (k + 1) =
          INPUT_BUFFER_SIZE + INPUT_BUFFER_SIZE * k := by ring
      rw [hsplit, List.replicate_add, steps_append,
        show (initAcc : AccState) = ⟨[], 0⟩ from rfl]
      rw [steps_fill_resets INPUT_BUFFER_SIZE 0 [] j hj rfl
        (by simp [INPUT_BUFFER_SIZE]) (by simp)]
      exact ih

/-- C9: for every input byte sequence the accumulator invariant holds: the
number of buffered bytes equals the cursor and the cursor stays strictly
below the 64-byte capacity (each byte is written at index equal to the
cursor of the state reached by the preceding prefix, so no write ever
lands at an index at or beyond 64); moreover whenever a step completes a
line or overflows, the resulting state is the empty buffer with cursor 0. -/
theorem c9_invariant (cs : List Char) :
    ((run cs).buf.length = (run cs).idx ∧ (run cs).idx < INPUT_BUFFER_SIZE) ∧
      ∀ c : Char, (feed (run cs) c).2 ≠ LineEvent.cont →
        (feed (run cs) c).1 = initAcc :=
  ⟨steps_inv cs initAcc rfl (by simp [INPUT_BUFFER_SIZE, initAcc]),
   fun c h => feed_reset (run cs) c h⟩

theorem c9_invariant_witness :
    ((run ['1']).buf.length = (run ['1']).idx ∧
      (run ['1']).idx < INPUT_BUFFER_SIZE) ∧
      (feed (run ['1']) '\r').1 = initAcc :=
  ⟨(c9_invariant ['1']).1, (c9_invariant ['1']).2 '\r' (by decide)⟩

/-- C6: the line handed to the tokenizer is not the buffer contents up to
and excluding the terminator: the carriage return itself is stored before
the terminator test, so the handed string ends in the terminator byte.
Feeding the single byte `1` and then the terminator hands `1\r`, not `1`. -/
theorem c6_cex :
    (feed (run "1".toList) '\r').2 =
      LineEvent.lineComplete "1\r".toList ∧
      "1\r".toList ≠ "1".toList := by
  refine ⟨by decide, by decide⟩

/-- C6 (amended): on the terminator byte the content handed to the
tokenizer is exactly the bytes received since the last reset followed by
the terminator itself, and afterwards the buffer is empty and the cursor
is 0.  Stated both for a line that follows a completed line and for a
line fed from the initial state. -/
theorem c6_complete (cs ds : List Char) (hcr : ∀ c ∈ ds, c ≠ '\r')
    (hlen : ds.length < INPUT_BUFFER_SIZE) :
    feed (run (cs ++ '\r' :: ds)) '\r' =
        (initAcc, LineEvent.lineComplete (ds ++ ['\r'])) ∧
      feed (run ds) '\r' = (initAcc, LineEvent.lineComplete (ds ++ ['\r'])) := by
  have hds : run ds = ⟨ds, ds.length⟩ := by
    have := steps_no_cr ds initAcc rfl hcr (by simpa [initAcc] using hlen)
    simpa [run, initAcc] using this
  have hcs : run (cs ++ '\r' :: ds) = run ds := by
    show steps initAcc (cs ++ '\r' :: ds) = run ds
    rw [steps_append, steps_cons]
    have : (feed (steps initAcc cs) '\r').1 = initAcc := by
      rw [feed_cr]
    rw [this]
    rfl
  rw [hcs, hds, feed_cr]
  exact ⟨rfl, rfl⟩

theorem c6_complete_witness :
    feed (run ("ab".toList ++ '\r' :: "1,2".toList)) '\r' =
        (initAcc, LineEvent.lineComplete ("1,2".toList ++ ['\r'])) ∧
      feed (run "1,2".toList) '\r' =
        (initAcc, LineEvent.lineComplete ("1,2".toList ++ ['\r'])) :=
  c6_complete "ab".toList "1,2".toList (by decide) (by decide)

set_option maxRecDepth 40000 in
/-- C4: an oversized run whose length is not a multiple of 64 does
contaminate the following line: after 65 bytes `9` the accumulator is
reset at the 64th byte, but the 65th byte survives in the buffer and
prefixes the next line, so `1,2,3,4,5,6,7` is tokenized as
`91,2,3,4,5,6,7` instead of on its own. -/
theorem c4_cex :
    (feed (run (List.replicate 65 '9' ++ "1,2,3,4,5,6,7".toList)) '\r').2 =
        LineEvent.lineComplete "91,2,3,4,5,6,7\r".toList ∧
      string_to_array "91,2,3,4,5,6,7\r".toList = (7, [91, 2, 3, 4, 5, 6, 7]) ∧
      string_to_array "1,2,3,4,5,6,7\r".toList = (7, [1, 2, 3, 4, 5, 6, 7]) ∧
      ([91, 2, 3, 4, 5, 6, 7] : List Int) ≠ [1, 2, 3, 4, 5, 6, 7] := by
  refine ⟨by decide, by decide, by decide, by decide⟩

/-- C4 (amended): the accumulator is reset each time 64 bytes accumulate
without a terminator, so after an oversized terminator-free run whose
length is a multiple of 64 the accumulator is exactly in the initial
state and the following line is processed precisely as if fed on its own;
for other lengths the residual bytes after the last reset prefix the next
line (see the counterexample). -/
theorem c4_overflow (k : Nat) (j : Char) (ds : List Char) (hj : j ≠ '\r') :
    run (List.replicate (INPUT_BUFFER_SIZE * k) j) = initAcc ∧
      feed (run (List.replicate (INPUT_BUFFER_SIZE * k) j ++ ds)) '\r' =
        feed (run ds) '\r' := by
  have hreset := steps_junk_multiple k j hj
  refine ⟨hreset, ?_⟩
  show feed (steps initAcc (List.replicate (INPUT_BUFFER_SIZE * k) j ++ ds)) '\r' = _
  rw [steps_append, hreset]
  rfl

theorem c4_overflow_witness :
    run (List.replicate (INPUT_BUFFER_SIZE * 2) '9') = initAcc ∧
      feed (run (List.replicate (INPUT_BUFFER_SIZE * 2) '9' ++
          "1,2,3,4,5,6,7".toList)) '\r' =
        feed (run "1,2,3,4,5,6,7".toList) '\r' :=
  c4_overflow 2 '9' "1,2,3,4,5,6,7".toList (by decide)

/-- Formalizes the saturation to [-128, 127] that the specification
claims for the stored quantized value. -/
def saturate8 (v : ℤ) : ℤ :=
  max (-128) (min 127 v)

theorem ratTrunc_intCast (n : ℤ) : ratTrunc ((n : ℤ) : ℚ) = n := by
  unfold ratTrunc
  split_ifs with h
  · exact Int.floor_intCast n
  · exact Int.ceil_intCast n

theorem quantize_one (zp x : ℤ) : quantize 1 zp x = x - zp := by
  unfold quantize
  rw [div_one, ratTrunc_intCast]

theorem ratTrunc_abs (q : ℚ) : |(ratTrunc q : ℚ) - q| < 1 := by
  unfold ratTrunc
  split_ifs with h
  · rw [abs_sub_lt_iff]
    constructor
    · linarith [Int.floor_le q]
    · linarith [Int.lt_floor_add_one q]
  · rw [abs_sub_lt_iff]
    constructor
    · linarith [Int.ceil_lt_add_one q]
    · linarith [Int.le_ceil q]

theorem wrap8_mem (v : ℤ) : -128 ≤ wrap8 v ∧ wrap8 v ≤ 127 := by
  unfold wrap8
  have h1 : 0 ≤ (v + 128) % 256 := Int.emod_nonneg _ (by norm_num)
  have h2 : (v + 128) % 256 < 256 := Int.emod_lt_of_pos _ (by norm_num)
  omega

theorem wrap8_eq_self (v : ℤ) (h1 : -128 ≤ v) (h2 : v ≤ 127) : wrap8 v = v := by
  unfold wrap8
  rw [Int.emod_eq_of_lt (by omega) (by omega)]
  omega

theorem clamp_eq_saturate (p : ℤ) : clamp_high (clamp_low p) = saturate8 p := by
  unfold clamp_high clamp_low saturate8
  split_ifs <;> omega

/-- C2: the round trip is not within one quantization step for every
zero point: the dequantize step subtracts the zero point again instead of
undoing the quantize step, so with scale 1 and zero point 1 the input 0
quantizes to -1 (inside int8) and dequantizes to -2, an error of 2 > 1. -/
theorem c2_cex :
    (0 : ℚ) < 1 ∧
      (-128 ≤ quantize 1 1 0 ∧ quantize 1 1 0 ≤ 127) ∧
      ¬ |dequantize_raw 1 1 (quantize 1 1 0) - ((0 : ℤ) : ℚ)| ≤ 1 := by
  have hq : quantize 1 1 0 = -1 := by rw [quantize_one]; decide
  refine ⟨by norm_num, ⟨by rw [hq]; decide, by rw [hq]; decide⟩, ?_⟩
  rw [hq]
  unfold dequantize_raw
  norm_num

/-- C2 (amended): when the zero point is 0 (the case in which the
asymmetry between the quantize and dequantize formulas vanishes), for
every positive scale and every input whose quantized image lies in the
int8 range, the dequantized quantized value is within one quantization
step of the input. -/
theorem c2_roundtrip (scale : ℚ) (x : ℤ) (hs : 0 < scale)
    (_h1 : -128 ≤ quantize scale 0 x) (_h2 : quantize scale 0 x ≤ 127) :
    |dequantize_raw scale 0 (quantize scale 0 x) - (x : ℚ)| ≤ scale := by
  have hq : quantize scale 0 x = ratTrunc ((x : ℚ) / scale) := by
    unfold quantize
    norm_num
  have hd : dequantize_raw scale 0 (quantize scale 0 x) =
      ((quantize scale 0 x : ℤ) : ℚ) * scale := by
    unfold dequantize_raw
    norm_num
  have hx : (x : ℚ) / scale * scale = (x : ℚ) :=
    div_mul_cancel₀ _ (ne_of_gt hs)
  rw [hd, hq]
  have hfactor : ((ratTrunc ((x : ℚ) / scale) : ℤ) : ℚ) * scale - (x : ℚ) =
      (((ratTrunc ((x : ℚ) / scale) : ℤ) : ℚ) - (x : ℚ) / scale) * scale := by
    rw [sub_mul, hx]
  rw [hfactor, abs_mul, abs_of_pos hs]
  have habs : |(ratTrunc ((x : ℚ) / scale) : ℚ) - (x : ℚ) / scale| ≤ 1 :=
    le_of_lt (ratTrunc_abs _)
  calc |(ratTrunc ((x : ℚ) / scale) : ℚ) - (x : ℚ) / scale| * scale
      ≤ 1 * scale := mul_le_mul_of_nonneg_right habs (le_of_lt hs)
    _ = scale := one_mul scale

theorem c2_roundtrip_witness :
    |dequantize_raw 1 0 (quantize 1 0 5) - ((5 : ℤ) : ℚ)| ≤ 1 :=
  c2_roundtrip 1 5 (by norm_num)
    (by rw [quantize_one]; decide) (by rw [quantize_one]; decide)

/-- C3: the stored quantized value is not the saturation of the
truncated scaled value: the int8 narrowing wraps around instead of
saturating, so with scale 1 and zero point 0 the input 200 truncates to
200, which the claim says should be stored as 127 but is stored as -56. -/
theorem c3_cex :
    quantize 1 0 200 = 200 ∧
      saturate8 (quantize 1 0 200) = 127 ∧
      quantize_store 1 0 200 = -56 ∧
      (-56 : ℤ) ≠ 127 := by
  have hq : quantize 1 0 200 = 200 := by rw [quantize_one]; decide
  refine ⟨hq, by rw [hq]; decide, ?_, by decide⟩
  unfold quantize_store
  rw [hq]
  decide

/-- C3 (amended): the stored value is the truncated scaled value narrowed
into [-128, 127] by two's-complement wraparound: it always lies in the
int8 range, and it equals the truncated value exactly when that value is
already in [-128, 127]; out-of-range values wrap rather than saturate
(see the counterexample). -/
theorem c3_store (scale : ℚ) (zp x : ℤ) :
    (-128 ≤ quantize_store scale zp x ∧ quantize_store scale zp x ≤ 127) ∧
      (-128 ≤ quantize scale zp x → quantize scale zp x ≤ 127 →
        quantize_store scale zp x = quantize scale zp x) :=
  ⟨wrap8_mem _, fun h1 h2 => wrap8_eq_self _ h1 h2⟩

theorem c3_store_witness :
    (-128 ≤ quantize_store 1 0 5 ∧ quantize_store 1 0 5 ≤ 127) ∧
      quantize_store 1 0 5 = quantize 1 0 5 :=
  ⟨(c3_store 1 0 5).1,
   (c3_store 1 0 5).2 (by rw [quantize_one]; decide) (by rw [quantize_one]; decide)⟩

/-- C5: the reported prediction is the rounded raw dequantized value
clamped to [-128, 127] (the two sequential comparisons implement exactly
the clamp), and for every raw output, scale and zero point the reported
value lies in [-128, 127].  The rounding is that of the C `round`
function: nearest, ties away from zero. -/
theorem c5_output (scale : ℚ) (zp r : ℤ) :
    dequant_report scale zp r =
        saturate8 (roundAway (dequantize_raw scale zp r)) ∧
      -128 ≤ dequant_report scale zp r ∧ dequant_report scale zp r ≤ 127 := by
  unfold dequant_report
  rw [clamp_eq_saturate]
  refine ⟨rfl, ?_, ?_⟩ <;>
    · unfold saturate8
      omega

/-- C7: the claim that after a failed startup every complete line is
rejected with a not-ready response is contradicted by the code: `setup`
leaves the engine not ready on a schema mismatch or allocation failure,
but neither `loop` nor `process_input` consults any readiness state and
no not-ready response exists anywhere, so a well-formed 7-integer line
still reaches quantization and engine invocation.  The embedding of
`process_input` takes no readiness input precisely because the source
reads none. -/
theorem c7_no_ready_check :
    setup_ready false true = false ∧
      setup_ready true false = false ∧
      process_input_resp "1,2,3,4,5,6,7\r".toList =
        Response.invoked [1, 2, 3, 4, 5, 6, 7] := by
  refine ⟨rfl, rfl, by decide⟩

end HW3
